import Mathlib

/-!
Verification of the multi-layer resonance indexing and graph construction
engine of the beansapplications repository.

The definitions below are shallow embeddings of the Python functions in
src/beans_resonance_dash.py, src/grok_dash.py, src/multi_layer_network.py
and src/gemdic_cli.py.  Machine integers are modelled as Nat/Int (Python
integers are unbounded, so no wrap-around is needed); Python dictionaries
with insertion order are modelled as association lists; Python sets of
strings are modelled as duplicate-free lists built by insert-if-absent;
code that can raise an exception is modelled with Option.
-/

namespace Beans

/-- A layer value as produced by the encodings: Python code stores either an
int (all entries of CALC_FUNCS in beans_resonance_dash.py) or a string (the
binary layer of multi_layer_network.py).  Floats do not occur as encoding
outputs in these files. -/
inductive Value where
  | int : Int → Value
  | str : String → Value
deriving DecidableEq, Repr

/-- Python `ord(c) - 64` for an upper-case letter, 0 otherwise: the per-character
contribution in `simple` (`sum(ord(c) - 64 for c in word.upper() if 'A' <= c <= 'Z')`). -/
def letterVal (c : Char) : Nat :=
  if 'A' ≤ c ∧ c ≤ 'Z' then c.toNat - 64 else 0

/-- Python `simple(word)` of beans_resonance_dash.py (identical in grok_dash.py and
multi_layer_network.py): simple Gematria, A=1 .. Z=26, non-letters contribute 0. -/
def simple (w : String) : Nat :=
  ((w.data.map Char.toUpper).map letterVal).sum

/-- Python `english_ordinal_x_6(word)`: `simple(word) * 6`. -/
def english_ordinal_x_6 (w : String) : Nat := simple w * 6

/-- The per-letter table JEWISH_GEMATRIA_MAP of beans_resonance_dash.py
(`.get(c, 0)` for characters outside the table). -/
def jewishVal (c : Char) : Nat :=
  match c with
  | 'A' => 1 | 'B' => 2 | 'C' => 3 | 'D' => 4 | 'E' => 5 | 'F' => 6
  | 'G' => 7 | 'H' => 8 | 'I' => 9 | 'J' => 10 | 'K' => 20 | 'L' => 30
  | 'M' => 40 | 'N' => 50 | 'O' => 60 | 'P' => 70 | 'Q' => 80 | 'R' => 90
  | 'S' => 100 | 'T' => 200 | 'U' => 300 | 'V' => 400 | 'W' => 500
  | 'X' => 600 | 'Y' => 700 | 'Z' => 800
  | _ => 0

/-- Python `jewish_gematria_english_letters(word)`: sum of JEWISH_GEMATRIA_MAP over
upper-cased characters in the range A..Z. -/
def jewish_gematria_english_letters (w : String) : Nat :=
  ((w.data.map Char.toUpper).map
    (fun c => if 'A' ≤ c ∧ c ≤ 'Z' then jewishVal c else 0)).sum

/-- QWERTY_ORDER of beans_resonance_dash.py. -/
def qwertyOrder : List Char := "QWERTYUIOPASDFGHJKLZXCVBNM".data

/-- QWERTY_MAP lookup with default 0: `QWERTY_MAP.get(c, 0)` where QWERTY_MAP
maps the i-th character of QWERTY_ORDER to i+1. -/
def qwertyVal (c : Char) : Nat :=
  if c ∈ qwertyOrder then qwertyOrder.indexOf c + 1 else 0

/-- Python `qwerty(word)`: sum of QWERTY_MAP values over the upper-cased word. -/
def qwerty (w : String) : Nat :=
  ((w.data.map Char.toUpper).map qwertyVal).sum

/-- Python `qwerty_english_panned(word)`: `qwerty(word) * 6`. -/
def qwerty_english_panned (w : String) : Nat := qwerty w * 6

/-- Python `qwerty_jewish_panned(word)`: also `qwerty(word) * 6` in the source. -/
def qwerty_jewish_panned (w : String) : Nat := qwerty w * 6

/-- LEFT_HAND_QWERTY_KEYS of beans_resonance_dash.py. -/
def leftHandKeys : List Char := "QWERTYASDFGZXCVB".data

/-- RIGHT_HAND_QWERTY_KEYS of beans_resonance_dash.py. -/
def rightHandKeys : List Char := "YUIOPHJKLNM".data

/-- Python `left_hand_qwerty(word)`: QWERTY values of upper-cased characters on the
left hand only. -/
def left_hand_qwerty (w : String) : Nat :=
  (((w.data.map Char.toUpper).filter (fun c => c ∈ leftHandKeys)).map qwertyVal).sum

/-- Python `right_hand_qwerty(word)`. -/
def right_hand_qwerty (w : String) : Nat :=
  (((w.data.map Char.toUpper).filter (fun c => c ∈ rightHandKeys)).map qwertyVal).sum

/-- Python `quantitative_left_hand_qwerty(word)`: count of upper-cased characters on
the left hand. -/
def quantitative_left_hand_qwerty (w : String) : Nat :=
  ((w.data.map Char.toUpper).filter (fun c => c ∈ leftHandKeys)).length

/-- Python `quantitative_right_hand_qwerty(word)`. -/
def quantitative_right_hand_qwerty (w : String) : Nat :=
  ((w.data.map Char.toUpper).filter (fun c => c ∈ rightHandKeys)).length

/-- Python `idea_numerology(word)`: sum of squared letter positions mod 100. -/
def idea_numerology (w : String) : Nat :=
  (((w.data.map Char.toUpper).map
    (fun c => if 'A' ≤ c ∧ c ≤ 'Z' then (c.toNat - 64) ^ 2 else 0)).sum) % 100

/-- Fuelled count of 1-bits; `popcountAux n n` computes the number of ones in
the binary representation of `n` (the fuel argument only bounds the recursion
depth, `n` itself is always enough fuel). -/
def popcountAux : Nat → Nat → Nat
  | 0, _ => 0
  | _ + 1, 0 => 0
  | fuel + 1, n => n % 2 + popcountAux fuel (n / 2)

/-- Number of one-digits in the binary representation of `n`.  The Python
format spec 08b zero-pads on the left, and padding zeros contribute nothing
to the count of ones, so counting the ones of that string equals the
popcount of the code point. -/
def popcount (n : Nat) : Nat := popcountAux n n

/-- Python `binary_sum_calc(word)` = `sum_binary_digits(binary_string(word))`: the
total number of 1-bits of the code points of the original (not upper-cased)
characters of the word. -/
def binary_sum_calc (w : String) : Nat :=
  (w.data.map (fun c => popcount c.toNat)).sum

/-- CALC_FUNCS of beans_resonance_dash.py: the ordered registry of the twelve
named encodings, each wrapped into a `Value.int` (all of them are integer
valued there). -/
def CALC_FUNCS : List (String × (String → Value)) :=
  [("Simple", fun w => .int (simple w)),
   ("English Ordinal x 6", fun w => .int (english_ordinal_x_6 w)),
   ("Jewish Gematria (English Letters)", fun w => .int (jewish_gematria_english_letters w)),
   ("Qwerty", fun w => .int (qwerty w)),
   ("QWERTY English Panned", fun w => .int (qwerty_english_panned w)),
   ("QWERTY Jewish Panned", fun w => .int (qwerty_jewish_panned w)),
   ("Left-Hand QWERTY", fun w => .int (left_hand_qwerty w)),
   ("Right-Hand QWERTY", fun w => .int (right_hand_qwerty w)),
   ("Left-Hand QWERTY Count", fun w => .int (quantitative_left_hand_qwerty w)),
   ("Right-Hand QWERTY Count", fun w => .int (quantitative_right_hand_qwerty w)),
   ("Idea Numerology", fun w => .int (idea_numerology w)),
   ("Binary Sum", fun w => .int (binary_sum_calc w))]

/-!
The layer index.  `GLOBAL_LAYERS[layer]` is a Python dict built by
`GLOBAL_LAYERS[layer].setdefault(val, []).append(w)` over the word list in
registry order; dicts preserve key insertion order, so it is modelled as an
association list in which `setdefault`-then-`append` either appends the word
to the first entry with the given key or appends a fresh singleton entry.
-/

/-- One `setdefault(val, []).append(w)` step on the association-list model of
a layer dictionary. -/
def addToIndex {V : Type} [DecidableEq V] :
    List (V × List String) → V → String → List (V × List String)
  | [], v, w => [(v, [w])]
  | (k, g) :: rest, v, w =>
      if k = v then (k, g ++ [w]) :: rest else (k, g) :: addToIndex rest v w

/-- The inner loop of `initialize_graph_data` that builds one layer of
GLOBAL_LAYERS: `for w in current_words: layers[layer].setdefault(val, []).append(w)`. -/
def buildLayer {V : Type} [DecidableEq V] (ws : List String) (f : String → V) :
    List (V × List String) :=
  ws.foldl (fun acc w => addToIndex acc (f w) w) []

/-- Dictionary lookup `layers[layer].get(v, [])` on the association-list model. -/
def getGroup {V : Type} [DecidableEq V] : List (V × List String) → V → List String
  | [], _ => []
  | (k, g) :: rest, v => if k = v then g else getGroup rest v

/-- The keys of a layer dictionary, in insertion order. -/
def keysOf {V : Type} (idx : List (V × List String)) : List V :=
  idx.map Prod.fst

/-- Concatenation of all item lists of one layer, in dict iteration order. -/
def joinGroups {V : Type} (idx : List (V × List String)) : List String :=
  (idx.map Prod.snd).flatten

/-- The `for i in range(len(group)): for j in range(i+1, len(group))` double
loop: all ordered pairs with the first component strictly earlier in the list. -/
def pairsOf {α : Type} : List α → List (α × α)
  | [] => []
  | x :: xs => (xs.map (fun y => (x, y))) ++ pairsOf xs

/-- The edge list built from one layer of GLOBAL_LAYERS: for every group of
size > 1, one `(group[i], group[j], val)` triple per `i < j` pair. -/
def edgesOfIndex {V : Type} (idx : List (V × List String)) :
    List (String × String × V) :=
  (idx.map (fun vg =>
    if 1 < vg.2.length then (pairsOf vg.2).map (fun p => (p.1, p.2, vg.1)) else [])).flatten

/-- GLOBAL_EDGES_BY_LAYER: one entry per registered layer, each holding only
the edges of that layer. -/
def buildEdgesByLayer {V : Type} [DecidableEq V]
    (layers : List (String × (String → V))) (ws : List String) :
    List (String × List (String × String × V)) :=
  layers.map (fun lf => (lf.1, edgesOfIndex (buildLayer ws lf.2)))

/-!
Python string primitives used by the ingestion paths, modelled on the
character list of the string.  The repository only feeds ASCII text into
them (validation restricts candidates to letters `[A-Za-z]` and spaces), for
which these models agree with CPython builtins `str.lower`, `str.strip`,
`str.isalpha`, `str.title` and `str.split()`.
-/

/-- Python `str.lower()`. -/
def pyLower (s : String) : String := ⟨s.data.map Char.toLower⟩

/-- Python `str.strip()`: remove leading and trailing whitespace. -/
def pyStrip (s : String) : String :=
  ⟨((s.data.dropWhile Char.isWhitespace).reverse.dropWhile Char.isWhitespace).reverse⟩

/-- Python `str.isalpha()`: non-empty and all characters alphabetic. -/
def pyIsAlpha (s : String) : Bool :=
  !s.data.isEmpty && s.data.all Char.isAlpha

/-- Helper for `str.title()`: upper-case every letter that follows a
non-letter, lower-case every other letter; the Bool records whether the
previous character was a letter. -/
def pyTitleAux : Bool → List Char → List Char
  | _, [] => []
  | prevAlpha, c :: cs =>
      (if c.isAlpha then (if prevAlpha then c.toLower else c.toUpper) else c) ::
        pyTitleAux c.isAlpha cs

/-- Python `str.title()`. -/
def pyTitle (s : String) : String := ⟨pyTitleAux false s.data⟩

/-- Helper for `str.split()`: split a character list on runs of whitespace,
dropping empty pieces; the accumulator holds the current word reversed. -/
def splitWsAux : List Char → List Char → List (List Char)
  | [], acc => if acc.isEmpty then [] else [acc.reverse]
  | c :: cs, acc =>
      if c.isWhitespace then
        (if acc.isEmpty then splitWsAux cs [] else acc.reverse :: splitWsAux cs [])
      else splitWsAux cs (c :: acc)

/-- Python `str.split()` with no separator argument. -/
def pySplit (s : String) : List String := (splitWsAux s.data []).map List.asString

/-- The regex `^[A-Za-z\s]+$` of grok_dash.py: non-empty, letters and
whitespace only. -/
def matchesLettersSpaces (s : String) : Bool :=
  !s.data.isEmpty && s.data.all (fun c => c.isAlpha || c.isWhitespace)

/-- The regex `^[A-Za-z]{3,}$` used for sub-words in grok_dash.py. -/
def matchesSubword (s : String) : Bool :=
  decide (3 ≤ s.data.length) && s.data.all Char.isAlpha

/-!
Origin bookkeeping.  GLOBAL_WORD_ORIGINS is a dict from word to a Python
set of origin strings; the set is modelled as a duplicate-free list built
by insert-if-absent, the dict as an association list.
-/

/-- Python `set.add`: insert an origin tag if not already present. -/
def addOriginTag (s : List String) (o : String) : List String :=
  if o ∈ s then s else s ++ [o]

/-- Python `GLOBAL_WORD_ORIGINS.setdefault(k, set()).add(o)`. -/
def setdefaultAdd : List (String × List String) → String → String → List (String × List String)
  | [], k, o => [(k, [o])]
  | (k0, s) :: rest, k, o =>
      if k0 = k then (k0, addOriginTag s o) :: rest
      else (k0, s) :: setdefaultAdd rest k o

/-- Dictionary lookup returning `none` for a missing key. -/
def findOrigins : List (String × List String) → String → Option (List String)
  | [], _ => none
  | (k, s) :: rest, q => if k = q then some s else findOrigins rest q

/-- Association-list lookup with an explicit default (`dict.get(k, d)`). -/
def lookupD {β : Type} : List (String × β) → String → β → β
  | [], _, d => d
  | (k, x) :: rest, q, d => if k = q then x else lookupD rest q d

/-- The mutable registry state of beans_resonance_dash.py that the ingestion
paths touch: GLOBAL_WORDS and GLOBAL_WORD_ORIGINS. -/
structure DashState where
  words : List String
  origins : List (String × List String)
deriving DecidableEq, Repr

/-- Result of the search/add branch of `update_output`: the new registry
state, the status message and the highlight. -/
structure AddOutcome where
  state : DashState
  status : String
  highlight : Option String
deriving DecidableEq, Repr

/-- The search/add branch of `update_output` (beans_resonance_dash.py):
strip, require `isalpha`, title-case, then append the word if its
case-insensitive identity is absent.  The status strings are abbreviations
of the f-string messages of the source. -/
def search_add (st : DashState) (searchText : String) : AddOutcome :=
  let w := pyStrip searchText
  if pyIsAlpha w then
    let t := pyTitle w
    if pyLower t ∈ st.words.map pyLower then
      { state := st, status := "already in network", highlight := some t }
    else
      { state := { words := st.words ++ [t],
                   origins := setdefaultAdd st.origins t ("_MANUAL_/_IMPORTED_LIST_") },
        status := "added to network", highlight := some t }
  else
    { state := st, status := "Please enter a valid word (letters only).",
      highlight := none }

/-- One word of the markdown-upload branch of `update_output`
(beans_resonance_dash.py): the raw word is title-cased; its origin set
always receives the file name (`setdefault(...).add(filename)`), and the
word joins GLOBAL_WORDS only when its case-insensitive identity is new. -/
def md_ingest_word (st : DashState) (rawWord : String) (filename : String) : DashState :=
  let t := pyTitle rawWord
  let origins1 := setdefaultAdd st.origins t filename
  if pyLower t ∈ st.words.map pyLower then
    { words := st.words, origins := origins1 }
  else
    { words := st.words ++ [t], origins := origins1 }

/-- Dictionary assignment `d[k] = v` (replace or append). -/
def dictSet : List (String × List String) → String → List String → List (String × List String)
  | [], k, v => [(k, v)]
  | (k0, s) :: rest, k, v =>
      if k0 = k then (k0, v) :: rest else (k0, s) :: dictSet rest k v

/-- The sub-word loop of the grok_dash.py search/add branch: each
whitespace-separated part of an accepted phrase that matches
`^[A-Za-z]{3,}$` and whose title case is absent is appended with origin
`_MANUAL_`. -/
def grokAddSubwords (st : DashState) (parts : List String) : DashState :=
  parts.foldl
    (fun st sub =>
      if matchesSubword sub ∧ pyTitle sub ∉ st.words then
        { words := st.words ++ [pyTitle sub],
          origins := dictSet st.origins (pyTitle sub) ["_MANUAL_"] }
      else st)
    st

/-- The search/add branch of `update_dashboard` (grok_dash.py): strip and
title-case, accept when the text matches `^[A-Za-z\s]+$` and is not yet
present (exact match), then also ingest the sub-words of a phrase;
otherwise report "already exists" or "Invalid word/phrase" and leave the
state untouched. -/
def grok_add (st : DashState) (searchText : String) : DashState × String :=
  let w := pyTitle (pyStrip searchText)
  if matchesLettersSpaces w ∧ w ∉ st.words then
    let st1 : DashState :=
      { words := st.words ++ [w], origins := dictSet st.origins w ["_MANUAL_"] }
    let st2 := if (' ') ∈ w.data then grokAddSubwords st1 (pySplit w) else st1
    (st2, "Added")
  else if w ∈ st.words then (st, "already exists")
  else (st, "Invalid word/phrase")

/-- Python `add_or_update_word_in_db` of gemdic_cli.py on the rows of the `words`
table: exact-match lookup on the stored value; an existing row gets the
union of its origin set with the new origin list, otherwise a new row is
inserted. -/
def add_or_update_word_in_db :
    List (String × List String) → String → List String → List (String × List String)
  | [], w, os => [(w, os)]
  | (k, s) :: rest, w, os =>
      if k = w then (k, os.foldl addOriginTag s) :: rest
      else (k, s) :: add_or_update_word_in_db rest w os

/-- Every gemdic_cli.py caller of `add_or_update_word_in_db` passes
`word.title()` (after stripping), so the database identity is the
title-cased form. -/
def gemdic_add (db : List (String × List String)) (raw : String) (os : List String) :
    List (String × List String) :=
  add_or_update_word_in_db db (pyTitle (pyStrip raw)) os

/-!
Primality and numerology helpers.
-/

/-- Python `math.isqrt(n)`: the integer square root, computed here as the largest
`k ≤ n` with `k * k ≤ n` (one less than the number of such `k` in
`0..n`). -/
def pyIsqrt (n : Nat) : Nat :=
  ((List.range (n + 1)).filter (fun k => decide (k * k ≤ n))).length - 1

/-- The trial-division loop shared by both `is_prime` implementations:
`for i in range(2, isqrt(num) + 1): if num % i == 0: return False` /
`return True`, preceded by the `num < 2` early return.  Only the integer
case is represented; `num` is non-negative whenever the loop runs. -/
def trialPrime (n : Int) : Bool :=
  if n < 2 then false
  else (List.range' 2 (pyIsqrt n.toNat - 1)).all (fun i => decide (n.toNat % i ≠ 0))

/-- Python `is_prime` of beans_resonance_dash.py: the `isinstance(num, (int, float))`
guard returns `False` on non-numeric input, then trial division. -/
def is_prime (v : Value) : Bool :=
  match v with
  | .str _ => false
  | .int n => trialPrime n

/-- Python `is_prime` of multi_layer_network.py: there is no isinstance guard, so
the first statement `if num < 2:` raises a TypeError on a string argument
(Python 3 forbids `str < int`); a raised exception is modelled by `none`. -/
def mln_is_prime (v : Value) : Option Bool :=
  match v with
  | .str _ => none
  | .int n => some (trialPrime n)

/-- Fuelled decimal digit sum: `digitSumAux fuel n` adds up the decimal
digits of `n`, provided `fuel ≥ n`; this models
`sum(int(digit) for digit in str(num))`. -/
def digitSumAux : Nat → Nat → Nat
  | 0, _ => 0
  | _ + 1, 0 => 0
  | fuel + 1, n => n % 10 + digitSumAux fuel (n / 10)

/-- The decimal digit sum of `n` (`n` itself is always sufficient fuel). -/
def digitSum (n : Nat) : Nat := digitSumAux n n

/-- Fuelled form of the `while num > 9: num = sum(int(digit) for digit in str(num))`
loop of `get_numerology`: `reduceDigitsAux fuel n` runs at most `fuel`
iterations of the loop body.  Because the digit sum strictly decreases every
`n > 9` (`digitSum_lt` below), `n` iterations always suffice, which is why
the Python loop terminates. -/
def reduceDigitsAux : Nat → Nat → Nat
  | 0, n => n
  | fuel + 1, n => if n ≤ 9 then n else reduceDigitsAux fuel (digitSum n)

/-- The repeated digit sum, reduced until a single decimal digit remains. -/
def reduceDigits (n : Nat) : Nat := reduceDigitsAux n n

/-- Python `get_numerology` of beans_resonance_dash.py: `None` for non-numeric
input, `0` for `0`, otherwise the absolute value reduced to a single digit
by repeated decimal digit sums. -/
def get_numerology (v : Value) : Option Int :=
  match v with
  | .str _ => none
  | .int n =>
      if n = 0 then some 0
      else some ((reduceDigits (if n < 0 then (-n).toNat else n.toNat) : Nat) : Int)

/-!
The rebuild pipeline `initialize_graph_data(current_words)` of
beans_resonance_dash.py, modelled as a function of the registry state.  The
spring-layout step (step 4 of the source) calls the external
`networkx.spring_layout` force solver and is not part of this state; the
source-side preparation of its `fixed` argument is modelled below as
`fixedPosKeys`.
-/

/-- The derived engine state rebuilt by `initialize_graph_data`:
GLOBAL_WORDS, GLOBAL_WORD_ORIGINS, GLOBAL_LAYERS, the node set of GLOBAL_G
and GLOBAL_EDGES_BY_LAYER. -/
structure GraphData where
  words : List String
  origins : List (String × List String)
  layers : List (String × List (Value × List String))
  nodes : List String
  edgesByLayer : List (String × List (String × String × Value))
deriving DecidableEq, Repr

/-- The resonance groups of one layer: the entries whose item list has more
than one element (`if len(group) > 1`), as materialized by
GLOBAL_SHARED_RESONANCES in grok_dash.py and consumed by the edge loop in
beans_resonance_dash.py. -/
def resonanceGroups (idx : List (Value × List String)) : List (Value × List String) :=
  idx.filter (fun vg => decide (1 < vg.2.length))

/-- Python `initialize_graph_data(current_words)` of beans_resonance_dash.py,
excluding the external spring-layout call: default origins for words that
have none, GLOBAL_LAYERS from CALC_FUNCS, nodes from the word list, and
GLOBAL_EDGES_BY_LAYER from the per-layer groups. -/
def init_graph_data (st : GraphData) : GraphData :=
  { words := st.words
    origins := st.words.foldl
      (fun m w =>
        if w ∈ m.map Prod.fst then m else m ++ [(w, ["_MANUAL_/_IMPORTED_LIST_"])])
      st.origins
    layers := CALC_FUNCS.map (fun lf => (lf.1, buildLayer st.words lf.2))
    nodes := st.words
    edgesByLayer := CALC_FUNCS.map (fun lf => (lf.1, edgesOfIndex (buildLayer st.words lf.2))) }

/-- The `fixed_pos` preparation of the layout step (source lines around
295): `{'Beans': [0,0,0]} if 'Beans' in current_words else {}` — its keys
are the only nodes `nx.spring_layout` is told to hold fixed; every other
previous position is passed merely as an initial guess via `pos=` and is
moved by the force iteration. -/
def fixedPosKeys (ws : List String) : List String :=
  if ("Beans" : String) ∈ ws then ["Beans"] else []

/-!
The view filter engine: the node- and edge-selection logic of
`build_graph_figure` in beans_resonance_dash.py (the Plotly trace
construction downstream of it is rendering, not engine state).  Python sets
are modelled by filtering the node list with the membership predicate of
each step.
-/

/-- The per-query view state handed to `build_graph_figure`. -/
structure ViewState where
  selectedLayers : List String
  highlightWord : Option String
  hideAll : Bool
  showPrimeOnly : Bool
  fadeUnconnected : Bool
  selectedWordsForFilter : List String
  selectedMarkdownFilters : List String
  selectedLayersForNodeFilter : List String
  numericalFilterValue : Option Int
  connNumericalFilterValue : Option Int
  connNumericalFilterLayers : List String
deriving Repr

/-- Membership in `filtered_by_words`: the filter words themselves plus the
direct neighbours they reach through an edge of a selected layer. -/
def inWordFilterSet (g : GraphData) (vs : ViewState) (x : String) : Bool :=
  vs.selectedWordsForFilter.contains x ||
  vs.selectedLayers.any (fun layer =>
    (lookupD g.edgesByLayer layer []).any (fun e =>
      (vs.selectedWordsForFilter.contains e.1 && (e.2.1 == x)) ||
      (vs.selectedWordsForFilter.contains e.2.1 && (e.1 == x))))

/-- Steps 1-4 of `build_graph_figure`: the successive intersections that
produce `nodes_to_draw`. -/
def nodes_to_draw (g : GraphData) (vs : ViewState) : List String :=
  let n0 := g.nodes
  let n1 := if vs.selectedWordsForFilter.isEmpty then n0
            else n0.filter (inWordFilterSet g vs)
  let n2 := if vs.selectedMarkdownFilters.isEmpty then n1
            else n1.filter (fun w =>
              vs.selectedMarkdownFilters.any (fun f => (lookupD g.origins w []).contains f))
  let n3 := if vs.selectedLayersForNodeFilter.isEmpty then n2
            else n2.filter (fun w =>
              vs.selectedLayersForNodeFilter.any (fun layer =>
                (lookupD g.layers layer []).any (fun vg =>
                  decide (1 < vg.2.length) && vg.2.contains w)))
  match vs.numericalFilterValue with
  | none => n3
  | some q => n3.filter (fun w =>
      CALC_FUNCS.any (fun lf =>
        match lf.2 w with
        | .int m => decide (m = q)
        | .str _ => false))

/-- Membership in `nodes_to_render_fully` when fading is active with a
highlight: the highlighted word and its neighbours (inside `nodes_to_draw`)
through edges of selected layers. -/
def fullyRendered (g : GraphData) (vs : ViewState) (ntd : List String) (x : String) : Bool :=
  match vs.highlightWord with
  | none => ntd.contains x
  | some h =>
      if vs.fadeUnconnected then
        (x == h) ||
        vs.selectedLayers.any (fun layer =>
          (lookupD g.edgesByLayer layer []).any (fun e =>
            ((e.1 == h) && ntd.contains e.2.1 && (e.2.1 == x)) ||
            ((e.2.1 == h) && ntd.contains e.1 && (e.1 == x))))
      else ntd.contains x

/-- The edge-retention test of the edge loop of `build_graph_figure`:
endpoints drawn, the numeric connection filter, the prime-only filter and
the fade filter. -/
def edgeKept (g : GraphData) (vs : ViewState) (ntd : List String) (layer : String)
    (e : String × String × Value) : Bool :=
  ntd.contains e.1 && ntd.contains e.2.1 &&
  (match vs.connNumericalFilterValue with
   | none => true
   | some q =>
       if !vs.connNumericalFilterLayers.isEmpty &&
          vs.connNumericalFilterLayers.contains layer then
         (match e.2.2 with
          | .int m => decide (m = q)
          | .str _ => false)
       else true) &&
  (!vs.showPrimeOnly || is_prime e.2.2) &&
  (match vs.highlightWord with
   | none => true
   | some h =>
       !vs.fadeUnconnected ||
       (fullyRendered g vs ntd e.1 && fullyRendered g vs ntd e.2.1 &&
        ((e.1 == h) || (e.2.1 == h))))

/-- The filtered, render-ready subset of the graph for one query. -/
structure VisibleView where
  nodes : List String
  edges : List (String × String × String × Value)
deriving DecidableEq, Repr

/-- The visible view computed by `build_graph_figure`: `nodes_to_draw`, and
for each selected layer (unless `hide_all`) the edges
`GLOBAL_EDGES_BY_LAYER.get(layer, [])` surviving `edgeKept`, tagged with
their layer. -/
def build_visible_view (g : GraphData) (vs : ViewState) : VisibleView :=
  let ntd := nodes_to_draw g vs
  { nodes := ntd
    edges :=
      if vs.hideAll then []
      else (vs.selectedLayers.map (fun layer =>
        ((lookupD g.edgesByLayer layer []).filter (edgeKept g vs ntd layer)).map
          (fun e => (layer, e)))).flatten }

/-- A view state that selects one layer name absent from the Encoding
Registry and leaves every filter inactive — the query of the unknown-layer
scenario. -/
def vsUnknownLayer : ViewState :=
  { selectedLayers := ["Sacred Geometry"],
    highlightWord := none,
    hideAll := false,
    showPrimeOnly := false,
    fadeUnconnected := false,
    selectedWordsForFilter := [],
    selectedMarkdownFilters := [],
    selectedLayersForNodeFilter := [],
    numericalFilterValue := none,
    connNumericalFilterValue := none,
    connNumericalFilterLayers := [] }

/-! ## Lemmas and theorems -/

theorem digitSumAux_eq_of_le :
    ∀ (f1 f2 n : Nat), n ≤ f1 → n ≤ f2 → digitSumAux f1 n = digitSumAux f2 n := by
  intro f1
  induction f1 with
  | zero =>
      intro f2 n h1 h2
      interval_cases n
      cases f2 <;> simp [digitSumAux]
  | succ f ih =>
      intro f2 n h1 h2
      match n, f2 with
      | 0, 0 => simp [digitSumAux]
      | 0, f2 + 1 => simp [digitSumAux]
      | n + 1, f2 + 1 =>
          simp only [digitSumAux]
          have hd : (n + 1) / 10 ≤ f := by
            have := Nat.div_le_self (n + 1) 10
            have h10 : (n + 1) / 10 < n + 1 := Nat.div_lt_self (Nat.succ_pos n) (by omega)
            omega
          have hd2 : (n + 1) / 10 ≤ f2 := by
            have h10 : (n + 1) / 10 < n + 1 := Nat.div_lt_self (Nat.succ_pos n) (by omega)
            omega
          rw [ih f2 ((n + 1) / 10) hd hd2]

theorem digitSumAux_le : ∀ (fuel n : Nat), n ≤ fuel → digitSumAux fuel n ≤ n := by
  intro fuel
  induction fuel with
  | zero => intro n h; interval_cases n; simp [digitSumAux]
  | succ f ih =>
      intro n h
      match n with
      | 0 => simp [digitSumAux]
      | n + 1 =>
          simp only [digitSumAux]
          have h10 : (n + 1) / 10 < n + 1 := Nat.div_lt_self (Nat.succ_pos n) (by omega)
          have := ih ((n + 1) / 10) (by omega)
          have := Nat.mod_le (n + 1) 10
          have heq : 10 * ((n + 1) / 10) + (n + 1) % 10 = n + 1 :=
            Nat.div_add_mod (n + 1) 10
          omega

/-- The repeated digit sum strictly decreases every number with at least two
decimal digits: the reason the `while num > 9` loop of `get_numerology`
terminates. -/
theorem digitSum_lt (n : Nat) (h : 9 < n) : digitSum n < n := by
  unfold digitSum
  match n, h with
  | n + 1, h =>
      simp only [digitSumAux]
      have h10 : (n + 1) / 10 < n + 1 := Nat.div_lt_self (Nat.succ_pos n) (by omega)
      have hle := digitSumAux_le n ((n + 1) / 10) (by omega)
      have heq : 10 * ((n + 1) / 10) + (n + 1) % 10 = n + 1 := Nat.div_add_mod (n + 1) 10
      have hq : 1 ≤ (n + 1) / 10 := by
        rw [Nat.le_div_iff_mul_le (by omega)]
        omega
      omega

theorem reduceDigitsAux_le : ∀ (fuel n : Nat), n ≤ fuel → reduceDigitsAux fuel n ≤ 9 := by
  intro fuel
  induction fuel with
  | zero => intro n h; interval_cases n; simp [reduceDigitsAux]
  | succ f ih =>
      intro n h
      simp only [reduceDigitsAux]
      split
      · omega
      · rename_i h9
        exact ih (digitSum n) (by have := digitSum_lt n (by omega); omega)

theorem reduceDigitsAux_eq_of_le :
    ∀ (f1 : Nat), ∀ (n : Nat), ∀ (f2 : Nat), n ≤ f1 → n ≤ f2 →
      reduceDigitsAux f1 n = reduceDigitsAux f2 n := by
  intro f1
  induction f1 with
  | zero =>
      intro n f2 h1 h2
      interval_cases n
      cases f2 <;> simp [reduceDigitsAux]
  | succ f ih =>
      intro n f2 h1 h2
      match f2 with
      | 0 =>
          interval_cases n
          simp [reduceDigitsAux]
      | f2 + 1 =>
          simp only [reduceDigitsAux]
          split
          · rfl
          · rename_i h9
            have hlt := digitSum_lt n (by omega)
            exact ih (digitSum n) f2 (by omega) (by omega)

theorem reduceDigits_le (n : Nat) : reduceDigits n ≤ 9 :=
  reduceDigitsAux_le n n (Nat.le_refl n)

@[simp] theorem keysOf_nil {V : Type} : keysOf ([] : List (V × List String)) = [] := rfl

@[simp] theorem keysOf_cons {V : Type} (p : V × List String) (rest : List (V × List String)) :
    keysOf (p :: rest) = p.1 :: keysOf rest := rfl

theorem getGroup_addToIndex {V : Type} [DecidableEq V]
    (acc : List (V × List String)) (v : V) (w : String) (u : V) :
    getGroup (addToIndex acc v w) u =
      if u = v then getGroup acc u ++ [w] else getGroup acc u := by
  induction acc with
  | nil =>
      by_cases h : u = v
      · subst h; simp [addToIndex, getGroup]
      · simp [addToIndex, getGroup, h, Ne.symm h]
  | cons p rest ih =>
      obtain ⟨k, g⟩ := p
      by_cases hk : k = v
      · subst hk
        by_cases hu : u = k
        · subst hu; simp [addToIndex, getGroup]
        · simp [addToIndex, getGroup, hu, Ne.symm hu]
      · by_cases hu : k = u
        · subst hu
          have huv : ¬k = v := hk
          simp [addToIndex, if_neg hk, getGroup, huv]
        · simp [addToIndex, if_neg hk, getGroup, if_neg hu, ih]

theorem keysOf_addToIndex {V : Type} [DecidableEq V]
    (acc : List (V × List String)) (v : V) (w : String) :
    keysOf (addToIndex acc v w) =
      if v ∈ keysOf acc then keysOf acc else keysOf acc ++ [v] := by
  induction acc with
  | nil => simp [addToIndex, keysOf]
  | cons p rest ih =>
      obtain ⟨k, g⟩ := p
      by_cases hk : k = v
      · subst hk; simp [addToIndex]
      · by_cases hv : v ∈ keysOf rest
        · simp [addToIndex, if_neg hk, hv, Ne.symm hk, ih]
        · simp [addToIndex, if_neg hk, hv, Ne.symm hk, ih]

theorem keysOf_addToIndex_nodup {V : Type} [DecidableEq V]
    (acc : List (V × List String)) (v : V) (w : String)
    (h : (keysOf acc).Nodup) : (keysOf (addToIndex acc v w)).Nodup := by
  rw [keysOf_addToIndex]
  by_cases hv : v ∈ keysOf acc
  · simpa [hv] using h
  · simp only [if_neg hv]
    simpa [List.nodup_append] using ⟨h, hv⟩

theorem count_joinGroups_addToIndex {V : Type} [DecidableEq V]
    (acc : List (V × List String)) (v : V) (w : String) (x : String) :
    (joinGroups (addToIndex acc v w)).count x =
      (joinGroups acc).count x + if w = x then 1 else 0 := by
  induction acc with
  | nil =>
      by_cases hw : w = x <;> simp [addToIndex, joinGroups, hw, List.count_cons]
  | cons p rest ih =>
      obtain ⟨k, g⟩ := p
      by_cases hk : k = v
      · subst hk
        by_cases hw : w = x <;>
          simp [addToIndex, joinGroups, List.count_append, hw, List.count_cons] <;> omega
      · simp only [addToIndex, if_neg hk, joinGroups, List.map_cons, List.flatten_cons,
          List.count_append] at ih ⊢
        omega

theorem getGroup_foldl {V : Type} [DecidableEq V] (f : String → V) :
    ∀ (ws : List String) (acc : List (V × List String)) (v : V),
      getGroup (ws.foldl (fun acc w => addToIndex acc (f w) w) acc) v =
        getGroup acc v ++ ws.filter (fun w => decide (f w = v)) := by
  intro ws
  induction ws with
  | nil => simp
  | cons w ws ih =>
      intro acc v
      simp only [List.foldl_cons, List.filter_cons]
      rw [ih, getGroup_addToIndex]
      by_cases h : f w = v
      · simp [h]
      · simp [h, Ne.symm h]

/-- The group stored under value `v` in one layer of GLOBAL_LAYERS is exactly
the registry filtered to the words whose encoding equals `v`, in registry
order. -/
theorem getGroup_buildLayer {V : Type} [DecidableEq V]
    (f : String → V) (ws : List String) (v : V) :
    getGroup (buildLayer ws f) v = ws.filter (fun w => decide (f w = v)) := by
  simpa [getGroup] using getGroup_foldl f ws [] v

theorem keysOf_foldl_nodup {V : Type} [DecidableEq V] (f : String → V) :
    ∀ (ws : List String) (acc : List (V × List String)),
      (keysOf acc).Nodup →
      (keysOf (ws.foldl (fun acc w => addToIndex acc (f w) w) acc)).Nodup := by
  intro ws
  induction ws with
  | nil => intro acc h; simpa using h
  | cons w ws ih =>
      intro acc h
      exact ih _ (keysOf_addToIndex_nodup _ _ _ h)

/-- The resonance values of one layer are pairwise distinct (dict keys). -/
theorem keysOf_buildLayer_nodup {V : Type} [DecidableEq V]
    (f : String → V) (ws : List String) : (keysOf (buildLayer ws f)).Nodup :=
  keysOf_foldl_nodup f ws [] (by simp [keysOf])

theorem count_joinGroups_foldl {V : Type} [DecidableEq V] (f : String → V) (x : String) :
    ∀ (ws : List String) (acc : List (V × List String)),
      (joinGroups (ws.foldl (fun acc w => addToIndex acc (f w) w) acc)).count x =
        (joinGroups acc).count x + ws.count x := by
  intro ws
  induction ws with
  | nil => simp
  | cons w ws ih =>
      intro acc
      simp only [List.foldl_cons]
      rw [ih, count_joinGroups_addToIndex]
      by_cases h : w = x <;> simp [h, List.count_cons] <;> omega

/-- Multiplicity preservation: the concatenation of all groups of a layer
holds every word exactly as often as the registry does. -/
theorem count_joinGroups_buildLayer {V : Type} [DecidableEq V]
    (f : String → V) (ws : List String) (x : String) :
    (joinGroups (buildLayer ws f)).count x = ws.count x := by
  simpa [joinGroups] using count_joinGroups_foldl f x ws []

theorem joinGroups_buildLayer_perm {V : Type} [DecidableEq V]
    (f : String → V) (ws : List String) :
    (joinGroups (buildLayer ws f)).Perm ws :=
  List.perm_iff_count.mpr (fun x => count_joinGroups_buildLayer f ws x)

theorem getGroup_of_mem {V : Type} [DecidableEq V] :
    ∀ {idx : List (V × List String)} {v : V} {g : List String},
      (keysOf idx).Nodup → (v, g) ∈ idx → getGroup idx v = g := by
  intro idx
  induction idx with
  | nil => simp
  | cons p rest ih =>
      intro v g hnd hmem
      obtain ⟨k, g0⟩ := p
      rcases List.mem_cons.mp hmem with h | h
      · cases h
        simp [getGroup]
      · have hv : v ∈ keysOf rest := List.mem_map.mpr ⟨(v, g), h, rfl⟩
        have hk : k ≠ v := by
          rintro rfl
          exact (List.nodup_cons.mp (by simpa using hnd)).1 hv
        simp only [getGroup, if_neg hk]
        exact ih (List.nodup_cons.mp (by simpa using hnd)).2 h

theorem pairsOf_length {α : Type} (l : List α) :
    (pairsOf l).length = l.length.choose 2 := by
  induction l with
  | nil => simp [pairsOf]
  | cons x xs ih =>
      simp [pairsOf, ih, Nat.choose_succ_succ, Nat.choose_one_right, Nat.add_comm]

theorem mem_of_mem_pairsOf {α : Type} {a b : α} :
    ∀ {l : List α}, (a, b) ∈ pairsOf l → a ∈ l ∧ b ∈ l := by
  intro l
  induction l with
  | nil => simp [pairsOf]
  | cons x xs ih =>
      intro h
      simp only [pairsOf, List.mem_append, List.mem_map] at h
      rcases h with ⟨y, hy, he⟩ | h
      · injection he with h1 h2
        subst h1; subst h2
        exact ⟨List.mem_cons_self _ _, List.mem_cons_of_mem _ hy⟩
      · exact ⟨List.mem_cons_of_mem x (ih h).1, List.mem_cons_of_mem x (ih h).2⟩

theorem pairsOf_complete {α : Type} {a b : α} :
    ∀ {l : List α}, a ∈ l → b ∈ l → a ≠ b →
      (a, b) ∈ pairsOf l ∨ (b, a) ∈ pairsOf l := by
  intro l
  induction l with
  | nil => simp
  | cons x xs ih =>
      intro ha0 hb0 hab
      rcases List.mem_cons.mp ha0 with rfl | ha
      · rcases List.mem_cons.mp hb0 with rfl | hb
        · exact absurd rfl hab
        · refine Or.inl ?_
          simp only [pairsOf, List.mem_append, List.mem_map]
          exact Or.inl ⟨b, hb, rfl⟩
      · rcases List.mem_cons.mp hb0 with rfl | hb
        · refine Or.inr ?_
          simp only [pairsOf, List.mem_append, List.mem_map]
          exact Or.inl ⟨a, ha, rfl⟩
        · rcases ih ha hb hab with h | h
          · exact Or.inl (by simp only [pairsOf, List.mem_append]; exact Or.inr h)
          · exact Or.inr (by simp only [pairsOf, List.mem_append]; exact Or.inr h)

theorem not_mem_pairsOf_diag {α : Type} {a : α} :
    ∀ {l : List α}, l.Nodup → (a, a) ∉ pairsOf l := by
  intro l
  induction l with
  | nil => simp [pairsOf]
  | cons x xs ih =>
      intro hnd h
      simp only [pairsOf, List.mem_append, List.mem_map] at h
      rcases h with ⟨y, hy, he⟩ | h
      · injection he with h1 h2
        subst h1; subst h2
        exact (List.nodup_cons.mp hnd).1 hy
      · exact ih (List.nodup_cons.mp hnd).2 h

theorem pairsOf_antisymm {α : Type} {a b : α} :
    ∀ {l : List α}, l.Nodup → (a, b) ∈ pairsOf l → (b, a) ∉ pairsOf l := by
  intro l
  induction l with
  | nil => simp [pairsOf]
  | cons x xs ih =>
      intro hnd hab hba
      simp only [pairsOf, List.mem_append, List.mem_map] at hab hba
      have hx : x ∉ xs := (List.nodup_cons.mp hnd).1
      have hxs : xs.Nodup := (List.nodup_cons.mp hnd).2
      rcases hab with ⟨y, hy, he⟩ | hab
      · injection he with h1 h2
        subst h1; subst h2
        rcases hba with ⟨z, hz, hz'⟩ | hba
        · injection hz' with q1 q2
          exact hx (q2 ▸ hz)
        · exact hx (mem_of_mem_pairsOf hba).2
      · rcases hba with ⟨z, hz, hz'⟩ | hba
        · injection hz' with q1 q2
          subst q1
          exact hx (mem_of_mem_pairsOf hab).2
        · exact ih hxs hab hba

@[simp] theorem edgesOfIndex_nil {V : Type} :
    edgesOfIndex ([] : List (V × List String)) = [] := rfl

@[simp] theorem edgesOfIndex_cons {V : Type} (p : V × List String)
    (rest : List (V × List String)) :
    edgesOfIndex (p :: rest) =
      (if 1 < p.2.length then (pairsOf p.2).map (fun q => (q.1, q.2, p.1)) else []) ++
        edgesOfIndex rest := rfl

theorem label_mem_keysOf {V : Type} :
    ∀ {idx : List (V × List String)} {e : String × String × V},
      e ∈ edgesOfIndex idx → e.2.2 ∈ keysOf idx := by
  intro idx
  induction idx with
  | nil => simp
  | cons p rest ih =>
      intro e he
      simp only [edgesOfIndex_cons, List.mem_append] at he
      rcases he with he | he
      · simp only [keysOf_cons, List.mem_cons]
        split at he
        · rcases List.mem_map.mp he with ⟨q, _, rfl⟩
          exact Or.inl rfl
        · simp at he
      · simp only [keysOf_cons, List.mem_cons]
        exact Or.inr (ih he)

theorem filter_edgesOfIndex {V : Type} [DecidableEq V] :
    ∀ {idx : List (V × List String)} {v : V} {g : List String},
      (keysOf idx).Nodup → (v, g) ∈ idx → 1 < g.length →
      (edgesOfIndex idx).filter (fun e => decide (e.2.2 = v)) =
        (pairsOf g).map (fun p => (p.1, p.2, v)) := by
  intro idx
  induction idx with
  | nil => simp
  | cons p rest ih =>
      intro v g hnd hmem hlen
      obtain ⟨k, g0⟩ := p
      have hx : k ∉ keysOf rest := (List.nodup_cons.mp (by simpa using hnd)).1
      have hrest : (keysOf rest).Nodup := (List.nodup_cons.mp (by simpa using hnd)).2
      simp only [edgesOfIndex_cons, List.filter_append]
      rcases List.mem_cons.mp hmem with h | h
      · cases h
        have h1 : ((pairsOf g).map (fun p => (p.1, p.2, v))).filter
            (fun e => decide (e.2.2 = v)) = (pairsOf g).map (fun p => (p.1, p.2, v)) := by
          apply List.filter_eq_self.mpr
          intro e he
          rcases List.mem_map.mp he with ⟨q, _, rfl⟩
          simp
        have h2 : (edgesOfIndex rest).filter (fun e => decide (e.2.2 = v)) = [] := by
          apply List.filter_eq_nil_iff.mpr
          intro e he
          have := label_mem_keysOf he
          simp only [decide_eq_true_eq]
          rintro rfl
          exact hx this
        rw [show ((v, g).2.length : Nat) = g.length from rfl] at *
        rw [if_pos hlen, h1, h2, List.append_nil]
      · have hv : v ∈ keysOf rest := List.mem_map.mpr ⟨(v, g), h, rfl⟩
        have hk : k ≠ v := by rintro rfl; exact hx hv
        have h1 : (if 1 < (k, g0).2.length then
            (pairsOf (k, g0).2).map (fun q => (q.1, q.2, (k, g0).1)) else
              ([] : List (String × String × V))).filter
            (fun e => decide (e.2.2 = v)) = [] := by
          apply List.filter_eq_nil_iff.mpr
          intro e he
          split at he
          · rcases List.mem_map.mp he with ⟨q, _, rfl⟩
            simpa using hk
          · simp at he
        rw [h1, List.nil_append]
        exact ih hrest h hlen

theorem findOrigins_setdefaultAdd (m : List (String × List String)) (k o q : String) :
    findOrigins (setdefaultAdd m k o) q =
      if q = k then some (addOriginTag ((findOrigins m k).getD []) o)
      else findOrigins m q := by
  induction m with
  | nil =>
      by_cases h : q = k
      · subst h; simp [setdefaultAdd, findOrigins, addOriginTag]
      · simp [setdefaultAdd, findOrigins, h, Ne.symm h]
  | cons p rest ih =>
      obtain ⟨k0, s⟩ := p
      by_cases hk : k0 = k
      · subst hk
        by_cases hq : q = k0
        · subst hq; simp [setdefaultAdd, findOrigins]
        · simp [setdefaultAdd, findOrigins, hq, Ne.symm hq]
      · by_cases hq : k0 = q
        · subst hq
          simp [setdefaultAdd, findOrigins, hk]
        · simp [setdefaultAdd, findOrigins, hk, hq, ih]

theorem lookupD_default {β : Type} :
    ∀ (m : List (String × β)) (q : String) (d : β),
      q ∉ m.map Prod.fst → lookupD m q d = d := by
  intro m
  induction m with
  | nil => intro q d _; rfl
  | cons p rest ih =>
      intro q d h
      obtain ⟨k, x⟩ := p
      simp only [List.map_cons, List.mem_cons] at h
      push_neg at h
      simp only [lookupD, if_neg (fun hh : k = q => h.1 hh.symm)]
      exact ih q d h.2

/-! ## The claims -/

/-- C1: for every layer (encoding), after building the Layer Index from the
Item Registry with `initialize_graph_data`, the union of the item lists over
all values of that layer is a permutation of the Item Registry, each item
appears exactly once across all lists, and the list of each value is exactly the
registry filtered to the words carrying that value; this holds for every
rebuild from any registry state with distinct items. -/
theorem claim_C1_layer_index_partition (st : GraphData) (h : st.words.Nodup) :
    ∀ p ∈ (init_graph_data st).layers,
      (joinGroups p.2).Perm st.words ∧
      (∀ w ∈ st.words, (joinGroups p.2).count w = 1) ∧
      ∃ lf ∈ CALC_FUNCS, p = (lf.1, buildLayer st.words lf.2) ∧
        ∀ v, getGroup p.2 v = st.words.filter (fun w => decide (lf.2 w = v)) := by
  intro p hp
  have hp' : p ∈ CALC_FUNCS.map (fun lf => (lf.1, buildLayer st.words lf.2)) := hp
  rcases List.mem_map.mp hp' with ⟨lf, hlf, rfl⟩
  refine ⟨joinGroups_buildLayer_perm _ _, ?_,
    lf, hlf, rfl, fun v => getGroup_buildLayer _ _ _⟩
  intro w hw
  rw [count_joinGroups_buildLayer]
  exact List.count_eq_one_of_mem h hw

/-- Witness for C1 at the registry `["Beans", "Dream"]` and the Simple layer. -/
theorem claim_C1_layer_index_partition_witness :
    (joinGroups (buildLayer ["Beans", "Dream"] (fun w => Value.int (simple w)))).Perm
      ["Beans", "Dream"] :=
  (claim_C1_layer_index_partition ⟨["Beans", "Dream"], [], [], [], []⟩ (by decide)
    ("Simple", buildLayer ["Beans", "Dream"] (fun w => Value.int (simple w)))
    (by decide)).1

/-- C2: a resonance group of size `k` (the entry `(v, g)` of a layer index
with `k = g.length > 1`) produces exactly `k*(k-1)/2` edges labelled with its
value — namely one `(a, b, v)` triple per `i < j` pair, each unordered pair
of distinct group members appearing in exactly one orientation — and edges
of different layers are kept in separate per-layer lists (the registry
`["Beans", "Dream"]` gets one Simple edge labelled 41 and, in parallel, one
English Ordinal x 6 edge labelled 246). -/
theorem claim_C2_edge_generation {V : Type} [DecidableEq V]
    (ws : List String) (f : String → V) (v : V) (g : List String)
    (hmem : (v, g) ∈ buildLayer ws f) (hlen : 1 < g.length) :
    ((edgesOfIndex (buildLayer ws f)).filter (fun e => decide (e.2.2 = v))).length =
        g.length * (g.length - 1) / 2 ∧
    (edgesOfIndex (buildLayer ws f)).filter (fun e => decide (e.2.2 = v)) =
        (pairsOf g).map (fun p => (p.1, p.2, v)) ∧
    (ws.Nodup → ∀ a b : String, a ≠ b →
        ((a ∈ g ∧ b ∈ g) ↔ ((a, b) ∈ pairsOf g ∨ (b, a) ∈ pairsOf g)) ∧
        ¬((a, b) ∈ pairsOf g ∧ (b, a) ∈ pairsOf g)) ∧
    lookupD (init_graph_data ⟨["Beans", "Dream"], [], [], [], []⟩).edgesByLayer
        ("Simple") [] = [("Beans", "Dream", Value.int 41)] ∧
    lookupD (init_graph_data ⟨["Beans", "Dream"], [], [], [], []⟩).edgesByLayer
        ("English Ordinal x 6") [] = [("Beans", "Dream", Value.int 246)] := by
  have hK := keysOf_buildLayer_nodup f ws
  have hg : getGroup (buildLayer ws f) v = g := getGroup_of_mem hK hmem
  have hfe := filter_edgesOfIndex hK hmem hlen
  refine ⟨?_, hfe, ?_, by decide, by decide⟩
  · rw [hfe, List.length_map, pairsOf_length, Nat.choose_two_right]
  · intro hnd a b hab
    have hgN : g.Nodup := by
      rw [← hg, getGroup_buildLayer]
      exact hnd.filter _
    refine ⟨⟨fun hm => pairsOf_complete hm.1 hm.2 hab, ?_⟩, ?_⟩
    · rintro (h1 | h1)
      · exact mem_of_mem_pairsOf h1
      · exact ⟨(mem_of_mem_pairsOf h1).2, (mem_of_mem_pairsOf h1).1⟩
    · rintro ⟨h1, h2⟩
      exact pairsOf_antisymm hgN h1 h2

/-- Witness for C2: the Simple group of `["Beans", "Dream", "Snaeb"]` (all of
value 41, size 3) yields 3 = 3*2/2 labelled edges. -/
theorem claim_C2_edge_generation_witness :
    ((edgesOfIndex (buildLayer ["Beans", "Dream", "Snaeb"]
        (fun w => Value.int (simple w)))).filter
      (fun e => decide (e.2.2 = Value.int 41))).length = 3 :=
  (claim_C2_edge_generation ["Beans", "Dream", "Snaeb"] (fun w => Value.int (simple w))
    (Value.int 41) ["Beans", "Dream", "Snaeb"] (by decide) (by decide)).1

/-- C3 (supporting evaluation for the layout-stability bug): at the registry
`["Beans", "Dream", "Snaeb"]` the rebuild pins only the anchor "Beans";
"Dream" and "Snaeb" are not in the `fixed` set handed to the
`networkx.spring_layout` force solver, whose iteration moves every non-fixed
node, so their previously assigned positions are not preserved even though
the source comments promise stability. -/
theorem claim_C3_only_anchor_pinned :
    fixedPosKeys ["Beans", "Dream", "Snaeb"] = ["Beans"] ∧
    ("Dream" : String) ∉ fixedPosKeys ["Beans", "Dream", "Snaeb"] ∧
    ("Snaeb" : String) ∉ fixedPosKeys ["Beans", "Dream", "Snaeb"] := by decide

/-- C4 counterexample: `simple("Beans")` is not 48 (it is 41, equal to
`simple("Dream")`), so the registry `["Beans", "Dream"]` does not yield zero
Simple edges. -/
theorem claim_C4_counterexample :
    simple ("Beans") ≠ 48 ∧
    edgesOfIndex (buildLayer ["Beans", "Dream"] (fun w => Value.int (simple w))) ≠ [] := by
  decide

/-- C4 amended: under Simple, "Beans", "Dream" and "Snaeb" all evaluate to
41; the registry `["Beans", "Dream"]` yields exactly one Simple edge, and
after adding "Snaeb" the single materialized Simple group is
`(41, ["Beans", "Dream", "Snaeb"])` with exactly three edges. -/
theorem claim_C4_amended :
    simple ("Beans") = 41 ∧ simple ("Dream") = 41 ∧ simple ("Snaeb") = 41 ∧
    edgesOfIndex (buildLayer ["Beans", "Dream"] (fun w => Value.int (simple w))) =
      [("Beans", "Dream", Value.int 41)] ∧
    resonanceGroups (buildLayer ["Beans", "Dream", "Snaeb"] (fun w => Value.int (simple w))) =
      [(Value.int 41, ["Beans", "Dream", "Snaeb"])] ∧
    edgesOfIndex (buildLayer ["Beans", "Dream", "Snaeb"] (fun w => Value.int (simple w))) =
      [("Beans", "Dream", Value.int 41), ("Beans", "Snaeb", Value.int 41),
       ("Dream", "Snaeb", Value.int 41)] := by
  decide

/-- C5: ingesting a text whose case-insensitive identity is already in the
registry adds no second item and unions the new origin tag into the origin set of the existing item; in particular adding "Love" from fileA and then "love"
from fileB leaves exactly one item with origins fileA and fileB, both
through the markdown ingestion path of beans_resonance_dash.py and through
the gemdic_cli.py database path. -/
theorem claim_C5_merge_not_replace :
    (∀ (st : DashState) (raw file : String),
        pyLower (pyTitle raw) ∈ st.words.map pyLower →
        (md_ingest_word st raw file).words = st.words ∧
        ∀ prev, findOrigins st.origins (pyTitle raw) = some prev →
          findOrigins (md_ingest_word st raw file).origins (pyTitle raw) =
            some (addOriginTag prev file)) ∧
    ((md_ingest_word (md_ingest_word ⟨[], []⟩ ("Love") ("fileA")) ("love") ("fileB")).words
        = ["Love"] ∧
      findOrigins
        (md_ingest_word (md_ingest_word ⟨[], []⟩ ("Love") ("fileA")) ("love")
          ("fileB")).origins ("Love") = some ["fileA", "fileB"]) ∧
    gemdic_add (gemdic_add [] ("Love") ["fileA"]) ("love") ["fileB"]
      = [("Love", ["fileA", "fileB"])] := by
  refine ⟨?_, by decide, by decide⟩
  intro st raw file hmem
  constructor
  · simp [md_ingest_word, hmem]
  · intro prev hprev
    have ho : (md_ingest_word st raw file).origins =
        setdefaultAdd st.origins (pyTitle raw) file := by
      simp [md_ingest_word, hmem]
    rw [ho, findOrigins_setdefaultAdd]
    simp [hprev]

/-- Witness for C5: repeat ingestion of "love" into a registry already
holding "Love" leaves the word list unchanged. -/
theorem claim_C5_merge_not_replace_witness :
    (md_ingest_word ⟨["Love"], [("Love", ["fileA"])]⟩ ("love") ("fileB")).words = ["Love"] :=
  ((claim_C5_merge_not_replace).1 ⟨["Love"], [("Love", ["fileA"])]⟩ ("love") ("fileB")
    (by decide)).1

/-- C6: rebuilding the Layer Index, Resonance Groups and Graph twice from an
unchanged Item Registry yields structurally identical results: the second
`initialize_graph_data` reproduces the same value-to-items maps (including
within-group order), the same node set, the same per-layer labelled edge
lists and the same materialized groups. -/
theorem claim_C6_rebuild_idempotent (st : GraphData) :
    (init_graph_data (init_graph_data st)).layers = (init_graph_data st).layers ∧
    (init_graph_data (init_graph_data st)).nodes = (init_graph_data st).nodes ∧
    (init_graph_data (init_graph_data st)).edgesByLayer =
      (init_graph_data st).edgesByLayer ∧
    ((init_graph_data (init_graph_data st)).layers.map
        (fun p => (p.1, resonanceGroups p.2))) =
      ((init_graph_data st).layers.map (fun p => (p.1, resonanceGroups p.2))) :=
  ⟨rfl, rfl, rfl, rfl⟩

/-- C7: a candidate text failing the validation pattern is rejected with the rejection message of the
source and no mutation: the beans_resonance_dash.py
search/add path returns the registry state untouched when `isalpha` fails,
and the grok_dash.py path returns the state untouched when the
letters/spaces regex fails (with the "Invalid word/phrase" reason whenever
the word is not already present). -/
theorem claim_C7_validation_no_mutation (st : DashState) (text : String) :
    (pyIsAlpha (pyStrip text) = false →
      search_add st text = ⟨st, "Please enter a valid word (letters only).", none⟩) ∧
    (matchesLettersSpaces (pyTitle (pyStrip text)) = false →
      (grok_add st text).1 = st ∧
      (pyTitle (pyStrip text) ∉ st.words → (grok_add st text).2 = "Invalid word/phrase")) := by
  constructor
  · intro h
    simp [search_add, h]
  · intro h
    have hcond : ¬(matchesLettersSpaces (pyTitle (pyStrip text)) = true ∧
        pyTitle (pyStrip text) ∉ st.words) := by simp [h]
    constructor
    · simp only [grok_add, if_neg hcond]
      split <;> rfl
    · intro hnot
      simp [grok_add, h, hnot]

/-- Witness for C7: the malformed candidate "abc123" is rejected and the
one-word registry is exactly as before. -/
theorem claim_C7_validation_no_mutation_witness :
    search_add ⟨["Beans"], []⟩ ("abc123") =
      ⟨⟨["Beans"], []⟩, "Please enter a valid word (letters only).", none⟩ :=
  (claim_C7_validation_no_mutation ⟨["Beans"], []⟩ ("abc123")).1 (by decide)

/-- C8 counterexample: a view query selecting only the unregistered layer
name "Sacred Geometry" over the registry `["Beans", "Dream"]` does not
return an empty Visible View: every node stays visible (the unknown layer is
silently looked up with an empty default) and no reason is reported. -/
theorem claim_C8_counterexample :
    (build_visible_view (init_graph_data ⟨["Beans", "Dream"], [], [], [], []⟩)
        vsUnknownLayer).nodes ≠ [] ∧
    (build_visible_view (init_graph_data ⟨["Beans", "Dream"], [], [], [], []⟩)
        vsUnknownLayer).nodes = ["Beans", "Dream"] ∧
    (build_visible_view (init_graph_data ⟨["Beans", "Dream"], [], [], [], []⟩)
        vsUnknownLayer).edges = [] := by
  decide

/-- C8 amended: a view query whose view state references only encoding
names absent from the registry does not raise and leaves engine state
untouched (the view is a pure function of the state), but instead of an
empty view with a reason it returns all nodes surviving the other filters —
here, with no other filters active, every node — and no edges, the unknown
layer being silently defaulted to an empty edge list. -/
theorem claim_C8_unknown_layer_amended (g : GraphData) (vs : ViewState)
    (h1 : vs.selectedWordsForFilter = []) (h2 : vs.selectedMarkdownFilters = [])
    (h3 : vs.selectedLayersForNodeFilter = []) (h4 : vs.numericalFilterValue = none)
    (h5 : ∀ L ∈ vs.selectedLayers, L ∉ g.edgesByLayer.map Prod.fst) :
    (build_visible_view g vs).nodes = g.nodes ∧
    (build_visible_view g vs).edges = [] := by
  have hntd : nodes_to_draw g vs = g.nodes := by
    simp [nodes_to_draw, h1, h2, h3, h4]
  constructor
  · simpa [build_visible_view] using hntd
  · have hmain : (vs.selectedLayers.map (fun layer =>
        ((lookupD g.edgesByLayer layer []).filter
          (edgeKept g vs (nodes_to_draw g vs) layer)).map
          (fun e => (layer, e)))).flatten =
        ([] : List (String × String × String × Value)) := by
      apply List.flatten_eq_nil_iff.mpr
      intro l hl
      rcases List.mem_map.mp hl with ⟨L, hL, rfl⟩
      rw [lookupD_default _ _ _ (h5 L hL)]
      rfl
    by_cases hh : vs.hideAll
    · simp [build_visible_view, hh]
    · simpa [build_visible_view, hh] using hmain

/-- Witness for C8 (amended): the unknown-layer query over
`["Beans", "Dream"]` returns both nodes. -/
theorem claim_C8_unknown_layer_amended_witness :
    (build_visible_view (init_graph_data ⟨["Beans", "Dream"], [], [], [], []⟩)
        vsUnknownLayer).nodes =
      (init_graph_data ⟨["Beans", "Dream"], [], [], [], []⟩).nodes :=
  (claim_C8_unknown_layer_amended (init_graph_data ⟨["Beans", "Dream"], [], [], [], []⟩)
    vsUnknownLayer rfl rfl rfl rfl (by decide)).1

/-- C9 counterexample: the `is_prime` of multi_layer_network.py (cited by
the claim) does not return False on a non-numeric value — its first
statement `num < 2` raises a TypeError on a string, modelled as `none`, so
the predicate is not total. -/
theorem claim_C9_counterexample :
    mln_is_prime (Value.str ("01000010")) = none := rfl

/-- C9 amended: the guarded `is_prime` of beans_resonance_dash.py (the one
used by the prime edge filter) is total — False on every non-numeric value
and on every number below 2, and anything it accepts is an integer at least
2 — while the unguarded `is_prime` of multi_layer_network.py returns a
boolean on every integer but raises (models to `none`) on every string; its
call sites only pass values of non-Binary layers, which are integers. -/
theorem claim_C9_prime_totality_amended :
    (∀ s : String, is_prime (Value.str s) = false) ∧
    (∀ n : Int, n < 2 → is_prime (Value.int n) = false) ∧
    (∀ v : Value, is_prime v = true → ∃ n : Int, v = Value.int n ∧ 2 ≤ n) ∧
    (∀ n : Int, mln_is_prime (Value.int n) = some (trialPrime n)) ∧
    (∀ s : String, mln_is_prime (Value.str s) = none) := by
  refine ⟨fun s => rfl, ?_, ?_, fun n => rfl, fun s => rfl⟩
  · intro n h
    simp [is_prime, trialPrime, h]
  · intro v h
    cases v with
    | str s => simp [is_prime] at h
    | int n =>
        refine ⟨n, rfl, ?_⟩
        by_contra hlt
        push_neg at hlt
        simp [is_prime, trialPrime, hlt] at h

/-- Witness for C9 (amended): 1 is below 2 and is classified non-prime. -/
theorem claim_C9_prime_totality_amended_witness :
    is_prime (Value.int 1) = false :=
  claim_C9_prime_totality_amended.2.1 1 (by decide)

/-- C10: the reduction-to-single-digit digest is total: every integer input
yields a value in 0..9 (negatives through their absolute value), every
non-numeric input yields the sentinel `none`, the loop variant holds — the
decimal digit sum strictly decreases every value above 9 — and the fuelled
loop is insensitive to any sufficient fuel bound, i.e. the `while` loop
stabilizes. -/
theorem claim_C10_numerology_terminates :
    (∀ n : Int, ∃ r : Int, get_numerology (Value.int n) = some r ∧ 0 ≤ r ∧ r ≤ 9) ∧
    (∀ s : String, get_numerology (Value.str s) = none) ∧
    (∀ n : Nat, 9 < n → digitSum n < n) ∧
    (∀ fuel n : Nat, n ≤ fuel → reduceDigitsAux fuel n = reduceDigits n) := by
  refine ⟨?_, fun s => rfl, fun n h => digitSum_lt n h, ?_⟩
  · intro n
    by_cases h0 : n = 0
    · exact ⟨0, by simp [get_numerology, h0], by norm_num, by norm_num⟩
    · refine ⟨((reduceDigits (if n < 0 then (-n).toNat else n.toNat) : Nat) : Int),
        by simp [get_numerology, h0], Int.ofNat_nonneg _, ?_⟩
      exact_mod_cast reduceDigits_le _
  · intro fuel n h
    exact reduceDigitsAux_eq_of_le fuel n n h (Nat.le_refl n)

/-- Witness for C10: the digit sum of 345 is 12, strictly below 345. -/
theorem claim_C10_numerology_terminates_witness :
    digitSum 345 < 345 :=
  claim_C10_numerology_terminates.2.2.1 345 (by decide)

end Beans
